import Mathlib

/-!
Verification of the Langara Course Planner client.

Part 1 embeds the code that is present in the repository source:
the data fetcher of `app/timetable/composer.tsx` (merging sections into
courses, error handling) and the course browser component (query-string
construction, instructor/room display lists, search-parameter updates).

Part 2 models, from the specification, the timetable composer logic
(combination enumerator, course selector, schedule conflict test) whose
component files (`TimetableSections`, `SelectedCourses`) are referenced by
`composer.tsx` but are not part of the provided source tree.
-/

/-- A schedule entry of a section, as in the `Schedule` interface of the
course browser: all fields are strings as delivered by the API. -/
structure Schedule where
  type : String
  days : String
  time : String
  start : String
  «end» : String
  room : String
  instructor : String
  id : String
  deriving DecidableEq, Repr, Inhabited

/-- A course section, as in the `Section` interface of the course browser. -/
structure Section where
  RP : String
  abbreviated_title : String
  course_code : String
  credits : Nat
  crn : Nat
  id : String
  «section» : String
  subject : String
  term : Nat
  year : Nat
  seats : String
  waitlist : String
  schedule : List Schedule
  deriving DecidableEq, Repr, Inhabited

/-- A course record as used by `composer.tsx`: its `sections` field is
(re)assigned by the data fetcher. -/
structure Course where
  subject : String
  course_code : String
  sections : List Section
  deriving DecidableEq, Repr, Inhabited

/-- Response envelope of the courses endpoint. -/
structure CoursesResponse where
  courses : List Course
  deriving DecidableEq, Repr

/-- Response envelope of the sections endpoint. -/
structure SectionsResponse where
  sections : List Section
  deriving DecidableEq, Repr

/-- The association step of `fetchData` in `composer.tsx`:
`course.sections = sectionsData.sections.filter(section =>
section.subject === course.subject && section.course_code === course.course_code)`
performed for every fetched course. -/
def mergeSections (courses : List Course) (sections : List Section) : List Course :=
  courses.map (fun c =>
    { c with
      sections := sections.filter (fun s =>
        s.subject == c.subject && s.course_code == c.course_code) })

/-- Outcome of the `fetchData` effect: either the merged course list is
stored via `setCourses`, or an error string is stored via `setError`. -/
inductive FetchResult where
  | ok (courses : List Course)
  | err (msg : String)
  deriving DecidableEq, Repr

/-- The control flow of `fetchData` in `composer.tsx`.  Each argument is
the result of one awaited fetch-and-parse (`Except.error` when the network
call rejects or `.json()` throws).  `Promise.all` propagates the first
failure into the single `catch`, which stores
`'Failed to fetch data: ' + err.message`; only when both succeed is the
merged data stored. -/
def fetchData (coursesRes : Except String CoursesResponse)
    (sectionsRes : Except String SectionsResponse) : FetchResult :=
  match coursesRes, sectionsRes with
  | .ok cd, .ok sd => .ok (mergeSections cd.courses sd.sections)
  | .error e, _ => .err ("Failed to fetch data: " ++ e)
  | .ok _, .error e => .err ("Failed to fetch data: " ++ e)

/-- A JavaScript value as stored in the `searchParams` state object of the
course browser (string, boolean or number field, possibly `undefined`). -/
inductive JSValue where
  | vUndefined
  | vStr (s : String)
  | vBool (b : Bool)
  | vNum (n : Nat)
  deriving DecidableEq, Repr, Inhabited

/-- Rendering `value.toString()` for the values that reach the query string. -/
def jsToString : JSValue → String
  | .vUndefined => "undefined"
  | .vStr s => s
  | .vBool b => if b then "true" else "false"
  | .vNum n => toString n

/-- The guard of `debouncedSearch` in the course browser:
`value !== undefined && value !== '' && value !== false`
(strict equality, so only the string `''` and the boolean `false` are
rejected besides `undefined`). -/
def keepParam (v : JSValue) : Bool :=
  v != JSValue.vUndefined && v != JSValue.vStr "" && v != JSValue.vBool false

/-- The query-parameter list built by `debouncedSearch`:
`Object.entries(params)` filtered by `keepParam`, each surviving entry
appended as `(key, value.toString())`. -/
def buildQueryParams (params : List (String × JSValue)) : List (String × String) :=
  (params.filter (fun p => keepParam p.2)).map (fun p => (p.1, jsToString p.2))

/-- Model of `Array.prototype.filter` with the `(value, index)` callback
`(v, i) => self.indexOf(v) === i`, traversing `xs` starting at index `i`
with `self` the full array. -/
def jsDedupAux (self : List String) : List String → Nat → List String
  | [], _ => []
  | x :: xs, i =>
    if self.indexOf x == i then x :: jsDedupAux self xs (i + 1)
    else jsDedupAux self xs (i + 1)

/-- The duplicate-removal step used for the instructor and room cells:
`.filter((v, index, self) => self.indexOf(v) === index)`. -/
def jsDedup (l : List String) : List String :=
  jsDedupAux l l 0

/-- The instructor cell of the results table:
exclude `Exam` schedule entries, map to instructor, remove duplicates,
`join(", ")`, and fall back to `"TBA"` when the joined string is falsy
(the empty string). -/
def instructorCell (schedule : List Schedule) : String :=
  let joined := String.intercalate ", "
    (jsDedup ((schedule.filter (fun e => e.type != "Exam")).map (·.instructor)))
  if joined = "" then "TBA" else joined

/-- The room cell of the results table, analogous to `instructorCell`
with fallback `"Unknown"`. -/
def roomCell (schedule : List Schedule) : String :=
  let joined := String.intercalate ", "
    (jsDedup ((schedule.filter (fun e => e.type != "Exam")).map (·.room)))
  if joined = "" then "Unknown" else joined

/-- Linear scan over a set container of already-seen values: keep an
element iff it has not been seen, recording seen elements.  This is the
canonical first-occurrence set-based deduplication the spec describes. -/
def dedupKeepFirstAux : List String → List String → List String
  | [], _ => []
  | a :: l, seen =>
    if seen.contains a then dedupKeepFirstAux l seen
    else a :: dedupKeepFirstAux l (a :: seen)

/-- Set-based deduplication keeping first occurrences, per the spec. -/
def dedupKeepFirst (l : List String) : List String :=
  dedupKeepFirstAux l []

/-- The instructor cell exactly as the spec words state it: the
deduplicated list joined with `", "`, with `"TBA"` only when that list is
empty. -/
def specInstructorCell (schedule : List Schedule) : String :=
  let d := dedupKeepFirst ((schedule.filter (fun e => e.type != "Exam")).map (·.instructor))
  if d = [] then "TBA" else String.intercalate ", " d

/-- The keys of the `SearchParams` interface of the course browser. -/
inductive SPKey where
  | subject
  | course_code
  | instructor_search
  | title_search
  | year
  | term
  | attr_ar
  | attr_sc
  | attr_hum
  | attr_lsc
  | attr_sci
  | attr_soc
  | attr_ut
  | online
  | filter_no_waitlist
  | filter_open_seats
  | filter_not_cancelled
  | page
  | sections_per_page
  deriving DecidableEq, Repr

/-- The `searchParams` state object, a key-to-value map. -/
def SearchParamsState : Type := SPKey → JSValue

/-- Object spread `{ ...prev, [key]: value }`. -/
def setField (p : SearchParamsState) (k : SPKey) (v : JSValue) : SearchParamsState :=
  fun k2 => if k2 = k then v else p k2

/-- The initial `searchParams` state:
`{ page: 1, sections_per_page: initial_sections_per_page }` with
`initial_sections_per_page = 50`. -/
def initialSearchParams : SearchParamsState :=
  fun k =>
    match k with
    | SPKey.page => JSValue.vNum 1
    | SPKey.sections_per_page => JSValue.vNum 50
    | _ => JSValue.vUndefined

/-- Function `handleInputChange` of the course browser: it first applies
`setSearchParams(prev => ({ ...prev, [key]: value }))`; if the key is
`'page'` it returns, otherwise it additionally applies
`setSearchParams(prev => ({ ...prev, [key]: value, page: 1 }))`.
React applies the functional updates in order. -/
def handleInputChange (p : SearchParamsState) (k : SPKey) (v : JSValue) :
    SearchParamsState :=
  let p1 := setField p k v
  if k = SPKey.page then p1
  else setField (setField p1 k v) SPKey.page (JSValue.vNum 1)

/-- JavaScript source name of each search-parameter key. -/
def spKeyName : SPKey → String
  | .subject => "subject"
  | .course_code => "course_code"
  | .instructor_search => "instructor_search"
  | .title_search => "title_search"
  | .year => "year"
  | .term => "term"
  | .attr_ar => "attr_ar"
  | .attr_sc => "attr_sc"
  | .attr_hum => "attr_hum"
  | .attr_lsc => "attr_lsc"
  | .attr_sci => "attr_sci"
  | .attr_soc => "attr_soc"
  | .attr_ut => "attr_ut"
  | .online => "online"
  | .filter_no_waitlist => "filter_no_waitlist"
  | .filter_open_seats => "filter_open_seats"
  | .filter_not_cancelled => "filter_not_cancelled"
  | .page => "page"
  | .sections_per_page => "sections_per_page"

/-- All search-parameter keys, in interface declaration order. -/
def spKeys : List SPKey :=
  [.subject, .course_code, .instructor_search, .title_search, .year, .term,
   .attr_ar, .attr_sc, .attr_hum, .attr_lsc, .attr_sci, .attr_soc, .attr_ut,
   .online, .filter_no_waitlist, .filter_open_seats, .filter_not_cancelled,
   .page, .sections_per_page]

/-- Entries `Object.entries(params)` for a search-parameter state. -/
def paramEntries (p : SearchParamsState) : List (String × JSValue) :=
  spKeys.map (fun k => (spKeyName k, p k))

namespace Timetable

/-- Modelled from the spec: the schedule-entry type classifier of the
repository's data model (spec section 3): lecture, lab, seminar or exam;
the timetable component files that consume it are not in the provided
source tree. -/
inductive SType where
  | lecture
  | lab
  | seminar
  | exam
  deriving DecidableEq, Repr, Inhabited

/-- Modelled from the spec: a schedule entry of the timetable composer
(spec section 3): a day-of-week set (0..6), a start time and an end time
in minutes; the component files consuming it are not in the provided
source tree. -/
structure ScheduleEntry where
  stype : SType
  days : List Nat
  startMin : Nat
  endMin : Nat
  deriving DecidableEq, Repr, Inhabited

/-- Modelled from the spec: a section of the timetable composer data
model, carrying its schedule entries. -/
structure Sec where
  id : String
  schedule : List ScheduleEntry
  deriving DecidableEq, Repr, Inhabited

/-- Modelled from the spec: a course of the timetable composer data model
(subject, course code, owned sections); the `SelectedCourses` component
file is not in the provided source tree. -/
structure Course where
  subject : String
  course_code : String
  sections : List Sec
  deriving DecidableEq, Repr, Inhabited

/-- Modelled from the spec: two entries share a day-of-week. -/
def sharesDay (a b : ScheduleEntry) : Bool :=
  a.days.any (fun d => b.days.contains d)

/-- Modelled from the spec: the half-open time intervals
[startMin, endMin) of the two entries intersect. -/
def timesOverlap (a b : ScheduleEntry) : Bool :=
  decide (a.startMin < b.endMin) && decide (b.startMin < a.endMin)

/-- Modelled from the spec (section 4.3): two schedule entries conflict
iff they share at least one common day-of-week and their [start, end)
time intervals overlap; the `TimetableSections` component file holding
the conflict test is not in the provided source tree. -/
def conflict (a b : ScheduleEntry) : Bool :=
  sharesDay a b && timesOverlap a b

/-- Modelled from the spec: the combination enumerator (spec section
4.3): the cartesian product across the groups of alternative sections,
in insertion order (first group varies slowest); the `TimetableSections`
component file is not in the provided source tree. -/
def enumerate {α : Type} : List (List α) → List (List α)
  | [] => [[]]
  | g :: gs => g.flatMap (fun s => (enumerate gs).map (fun c => s :: c))

/-- The number of combinations the spec predicts: the product of the
group sizes. -/
def numCombos {α : Type} (gs : List (List α)) : Nat :=
  (gs.map List.length).prod

/-- The combination at a given enumeration index, decoded positionally:
index `i` selects element `i / numCombos rest` of the first group and
recurses with `i % numCombos rest`.  This exhibits the enumeration order
as a function of the insertion order of the groups alone. -/
def decodeCombo {α : Type} [Inhabited α] : List (List α) → Nat → List α
  | [], _ => []
  | g :: gs, i => g.getD (i / numCombos gs) default :: decodeCombo gs (i % numCombos gs)

/-- Modelled from the spec: the non-exam schedule entries of a
combination, in combination order. -/
def combinationEntries (combo : List Sec) : List ScheduleEntry :=
  (combo.flatMap (fun s => s.schedule)).filter (fun e => e.stype != SType.exam)

/-- Modelled from the spec: pairwise absence of conflicts. -/
def noConflicts : List ScheduleEntry → Bool
  | [] => true
  | e :: es => es.all (fun f => !(conflict e f)) && noConflicts es

/-- Modelled from the spec: the validity flag attached to a combination:
no two of its non-exam schedule entries conflict. -/
def isValidCombination (combo : List Sec) : Bool :=
  noConflicts (combinationEntries combo)

/-- Modelled from the spec: the key identifying a course in the
selection (subject and course code). -/
def courseKey (c : Course) : String × String :=
  (c.subject, c.course_code)

/-- Modelled from the spec (section 4.2): `add(course)` appends to the
selection if not already present and is a no-op otherwise; the
`SelectedCourses` component file is not in the provided source tree. -/
def addCourse (sel : List Course) (c : Course) : List Course :=
  if sel.any (fun x => courseKey x == courseKey c) then sel else sel ++ [c]

/-- Modelled from the spec (section 4.2): `remove(courseKey)` removes
the matching course from the selection. -/
def removeCourse (sel : List Course) (k : String × String) : List Course :=
  sel.filter (fun x => courseKey x != k)

/-- Modelled from the spec: the groups of alternative sections of a
selection, one group per course in insertion order (the data of the
provided source does not distinguish component types within a course, so
all sections of a course are mutually-exclusive alternatives). -/
def selectionGroups (sel : List Course) : List (List Sec) :=
  sel.map (fun c => c.sections)

/-- Modelled from the spec: the enumerator applied to a selection. -/
def enumerateSelection (sel : List Course) : List (List Sec) :=
  enumerate (selectionGroups sel)

end Timetable

/-- A non-exam schedule entry whose instructor string is empty, as the
API delivers for sections with no assigned instructor. -/
def examlessEmptyInstructor : Schedule :=
  { type := "Lecture", days := "M------", time := "0830-0920", start := "08:30",
    «end» := "09:20", room := "A130", instructor := "", id := "sched1" }

/-- A small concrete section record for witnesses. -/
def sampleSection (sid subj code : String) : Section :=
  { RP := "", abbreviated_title := "Intro", course_code := code, credits := 3,
    crn := 10000, id := sid, «section» := "001", subject := subj, term := 10,
    year := 2025, seats := "10", waitlist := "0", schedule := [] }

/-- A one-course fetch result for witnesses. -/
def demoCourses : List Course :=
  [{ subject := "CPSC", course_code := "1050", sections := [] }]

/-- Two fetched sections, one matching the demo course, for witnesses. -/
def demoSections : List Section :=
  [sampleSection "s1" "CPSC" "1050", sampleSection "s2" "MATH" "1171"]

/-- The demo course after section association. -/
def demoMergedCourse : Course :=
  { subject := "CPSC", course_code := "1050",
    sections := [sampleSection "s1" "CPSC" "1050"] }

/-- A concrete search-parameter entry list with distinct keys. -/
def demoParams : List (String × JSValue) :=
  [("subject", JSValue.vStr "CPSC"), ("title_search", JSValue.vStr ""),
   ("attr_ar", JSValue.vBool false), ("online", JSValue.vBool true),
   ("page", JSValue.vNum 1)]

/-- A 9:00-10:00 Tuesday lecture entry (minutes from midnight). -/
def entryNineToTen : Timetable.ScheduleEntry :=
  { stype := Timetable.SType.lecture, days := [1], startMin := 540, endMin := 600 }

/-- A 10:00-11:00 Tuesday lecture entry, back to back with
`entryNineToTen`. -/
def entryTenToEleven : Timetable.ScheduleEntry :=
  { stype := Timetable.SType.lecture, days := [1], startMin := 600, endMin := 660 }

/-- A selected course with two alternative sections. -/
def courseA : Timetable.Course :=
  { subject := "CPSC", course_code := "1050",
    sections := [{ id := "a1", schedule := [] }, { id := "a2", schedule := [] }] }

/-- A second selected course with two alternative sections. -/
def courseB : Timetable.Course :=
  { subject := "MATH", course_code := "1171",
    sections := [{ id := "b1", schedule := [] }, { id := "b2", schedule := [] }] }

/-- A section used for zero-section-group witnesses. -/
def secExample : Timetable.Sec :=
  { id := "m1", schedule := [] }

namespace Timetable

theorem enumerate_nil {α : Type} : enumerate ([] : List (List α)) = [[]] := rfl

theorem enumerate_cons {α : Type} (g : List α) (gs : List (List α)) :
    enumerate (g :: gs) = g.flatMap (fun s => (enumerate gs).map (fun c => s :: c)) := rfl

theorem length_enumerate {α : Type} (gs : List (List α)) :
    (enumerate gs).length = numCombos gs := by
  induction gs with
  | nil => rfl
  | cons g gs ih =>
    simp only [enumerate_cons, List.length_flatMap, Function.comp_def, List.length_map, ih,
      numCombos, List.map_cons, List.prod_cons]
    simp [List.map_const]

theorem enumerate_eq_nil_of_any_isEmpty {α : Type} (gs : List (List α))
    (h : gs.any List.isEmpty = true) : enumerate gs = [] := by
  have h0 : numCombos gs = 0 := by
    rcases List.any_eq_true.mp h with ⟨g, hg, hge⟩
    have hgnil : g = [] := by simpa using hge
    exact List.prod_eq_zero (List.mem_map.mpr ⟨g, hg, by rw [hgnil]; rfl⟩)
  have hl := length_enumerate gs
  rw [h0] at hl
  exact List.length_eq_zero.mp hl

theorem decodeCombo_aux {α : Type} [Inhabited α] (t : Nat → List α) (P : Nat) (hP : 0 < P) :
    ∀ g : List α,
      (List.range (g.length * P)).map (fun i => g.getD (i / P) default :: t (i % P))
        = g.flatMap (fun s => ((List.range P).map t).map (fun c => s :: c)) := by
  intro g
  induction g with
  | nil => simp
  | cons s g ih =>
    have hlen : (s :: g).length * P = P + g.length * P := by
      rw [List.length_cons, Nat.succ_mul, Nat.add_comm]
    rw [hlen, List.range_add, List.map_append, List.flatMap_cons]
    congr 1
    · rw [List.map_map]
      apply List.map_congr_left
      intro i hi
      have hiP : i < P := List.mem_range.mp hi
      rw [Nat.div_eq_of_lt hiP, Nat.mod_eq_of_lt hiP, List.getD_cons_zero]
      rfl
    · rw [List.map_map, ← ih]
      apply List.map_congr_left
      intro i _
      show (s :: g).getD ((P + i) / P) default :: t ((P + i) % P)
          = g.getD (i / P) default :: t (i % P)
      have h1 : (P + i) / P = i / P + 1 := by
        rw [Nat.add_comm]; exact Nat.add_div_right i hP
      have h2 : (P + i) % P = i % P := Nat.add_mod_left P i
      rw [h1, h2, List.getD_cons_succ]

theorem enumerate_eq_range_map {α : Type} [Inhabited α] (gs : List (List α)) :
    enumerate gs = (List.range (numCombos gs)).map (decodeCombo gs) := by
  induction gs with
  | nil => rfl
  | cons g gs ih =>
    by_cases hP : numCombos gs = 0
    · have henil : enumerate gs = [] := by
        rw [ih, hP]; rfl
      have hncons : numCombos (g :: gs) = 0 := by
        simp [numCombos, List.prod_cons, hP]
        right
        simpa [numCombos] using hP
      rw [enumerate_cons, henil, hncons]
      simp
    · have hP' : 0 < numCombos gs := Nat.pos_of_ne_zero hP
      rw [enumerate_cons, ih, ← decodeCombo_aux (decodeCombo gs) (numCombos gs) hP' g]
      have hn : numCombos (g :: gs) = g.length * numCombos gs := by
        simp [numCombos]
      rw [hn]
      apply List.map_congr_left
      intro i _
      rfl

end Timetable

theorem jsDedupAux_cons_shift (a : String) (l : List String) :
    ∀ (xs : List String) (i : Nat),
      jsDedupAux (a :: l) xs (i + 1) = (jsDedupAux l xs i).filter (fun x => x != a) := by
  intro xs
  induction xs with
  | nil => intro i; rfl
  | cons x xs ih =>
    intro i
    by_cases hxa : x = a
    · have h0 : (a :: l).indexOf x = 0 := by
        simp [List.indexOf_cons, hxa.symm]
      have hne : (0 == i + 1) = false := by
        simp
      rw [jsDedupAux, h0, hne]
      simp only [Bool.false_eq_true, if_false]
      rw [ih (i + 1)]
      rw [jsDedupAux]
      by_cases hidx : (l.indexOf x == i) = true
      · rw [if_pos hidx, List.filter_cons]
        have hxx : (x != a) = false := by
          simp [hxa]
        rw [hxx]
        simp
      · rw [if_neg hidx]
    · have hstep : (a :: l).indexOf x = l.indexOf x + 1 := by
        rw [List.indexOf_cons]
        have hax : (a == x) = false := by
          refine beq_eq_false_iff_ne.mpr ?_
          exact fun h => hxa h.symm
        rw [hax]
        rfl
      have hbeq : (l.indexOf x + 1 == i + 1) = (l.indexOf x == i) := by
        rw [Bool.eq_iff_iff]
        simp
      rw [jsDedupAux, hstep, hbeq, jsDedupAux]
      by_cases hidx : (l.indexOf x == i) = true
      · rw [if_pos hidx, if_pos hidx, List.filter_cons]
        have hxx : (x != a) = true := by simpa using hxa
        rw [hxx]
        simp only [if_true]
        rw [ih (i + 1)]
      · rw [if_neg hidx, if_neg hidx]
        exact ih (i + 1)

theorem jsDedup_cons (a : String) (l : List String) :
    jsDedup (a :: l) = a :: (jsDedup l).filter (fun x => x != a) := by
  show jsDedupAux (a :: l) (a :: l) 0 = _
  rw [jsDedupAux]
  have h0 : (a :: l).indexOf a = 0 := by simp [List.indexOf_cons]
  rw [h0]
  simp only [beq_self_eq_true, if_true]
  rw [jsDedupAux_cons_shift a l l 0]
  rfl

theorem mem_jsDedup (x : String) (l : List String) : x ∈ jsDedup l ↔ x ∈ l := by
  induction l with
  | nil => rfl
  | cons a l ih =>
    rw [jsDedup_cons]
    by_cases hxa : x = a
    · subst hxa; simp
    · simp only [List.mem_cons, List.mem_filter, ih]
      constructor
      · rintro (h | ⟨h, _⟩)
        · exact Or.inl h
        · exact Or.inr h
      · rintro (h | h)
        · exact Or.inl h
        · exact Or.inr ⟨h, by simpa using hxa⟩

theorem jsDedup_nodup (l : List String) : (jsDedup l).Nodup := by
  induction l with
  | nil => exact List.nodup_nil
  | cons a l ih =>
    rw [jsDedup_cons]
    refine List.nodup_cons.mpr ⟨?_, ih.filter _⟩
    intro hmem
    have := (List.mem_filter.mp hmem).2
    simp at this

theorem jsDedup_sublist (l : List String) : (jsDedup l).Sublist l := by
  induction l with
  | nil => exact List.Sublist.refl []
  | cons a l ih =>
    rw [jsDedup_cons]
    exact List.Sublist.cons₂ a ((List.filter_sublist _).trans ih)

theorem dedupKeepFirstAux_eq (l : List String) :
    ∀ seen : List String,
      dedupKeepFirstAux l seen = (jsDedup l).filter (fun x => !seen.contains x) := by
  induction l with
  | nil => intro seen; rfl
  | cons a l ih =>
    intro seen
    rw [jsDedup_cons, dedupKeepFirstAux, List.filter_cons]
    by_cases hsa : seen.contains a = true
    · rw [if_pos hsa, hsa]
      simp only [Bool.not_true, Bool.false_eq_true, if_false]
      rw [ih seen, List.filter_filter]
      apply List.filter_congr
      intro x _
      by_cases hxs : seen.contains x = true
      · rw [hxs]
        rfl
      · have hxs' : seen.contains x = false := Bool.eq_false_iff.mpr hxs
        have hxa : (x != a) = true := by
          refine bne_iff_ne.mpr ?_
          intro h
          rw [h, hsa] at hxs'
          exact Bool.true_eq_false.mp hxs'
        rw [hxs', hxa]
        rfl
    · have hsa' : seen.contains a = false := Bool.eq_false_iff.mpr hsa
      rw [if_neg hsa, hsa']
      simp only [Bool.not_false, if_true]
      rw [ih (a :: seen), List.filter_filter]
      congr 1
      apply List.filter_congr
      intro x _
      rw [List.contains_cons]
      cases hx : (x == a) <;> cases hs : seen.contains x <;>
        simp [hx, hs, bne]

theorem jsDedup_eq_dedupKeepFirst (l : List String) :
    jsDedup l = dedupKeepFirst l := by
  rw [dedupKeepFirst, dedupKeepFirstAux_eq l []]
  have : ∀ x ∈ jsDedup l, (!([] : List String).contains x) = true := by
    intro x _
    rfl
  rw [List.filter_eq_self.mpr this]

/-- C1: the number of combinations produced by the enumerator equals the
product, over the course/component-type groups, of the number of
alternative sections in each group; any group with zero sections yields
zero combinations, and the empty selection yields exactly the one
trivial empty combination. -/
theorem claim1_enumerator_count (gs : List (List Timetable.Sec)) :
    (Timetable.enumerate gs).length = (gs.map List.length).prod
    ∧ (gs.any List.isEmpty = true → Timetable.enumerate gs = [])
    ∧ Timetable.enumerate ([] : List (List Timetable.Sec)) = [[]] :=
  ⟨Timetable.length_enumerate gs, Timetable.enumerate_eq_nil_of_any_isEmpty gs, rfl⟩

/-- Witness for C1 at a concrete selection containing an empty group. -/
theorem claim1_enumerator_count_witness :
    Timetable.enumerate [[], [secExample]] = [] :=
  (claim1_enumerator_count [[], [secExample]]).2.1 (by decide)

/-- C2: for non-exam schedule entries the conflict test returns true iff
the two entries share a common day-of-week and their half-open
[start, end) intervals intersect; in particular an entry ending at 10:00
and an entry starting at 10:00 on the same day do not conflict. -/
theorem claim2_conflict_charac (A B : Timetable.ScheduleEntry)
    (hA : A.stype ≠ Timetable.SType.exam) (hB : B.stype ≠ Timetable.SType.exam) :
    (Timetable.conflict A B = true ↔
      ((∃ d, d ∈ A.days ∧ d ∈ B.days)
        ∧ A.startMin < B.endMin ∧ B.startMin < A.endMin))
    ∧ Timetable.conflict entryNineToTen entryTenToEleven = false
    ∧ Timetable.conflict entryTenToEleven entryNineToTen = false := by
  refine ⟨?_, by decide, by decide⟩
  unfold Timetable.conflict Timetable.sharesDay Timetable.timesOverlap
  simp [List.any_eq_true, Bool.and_eq_true, decide_eq_true_iff, List.contains,
    List.elem_iff]

/-- Witness for C2 at the back-to-back pair of lecture entries. -/
theorem claim2_conflict_charac_witness :
    (Timetable.conflict entryNineToTen entryTenToEleven = true ↔
      ((∃ d, d ∈ entryNineToTen.days ∧ d ∈ entryTenToEleven.days)
        ∧ entryNineToTen.startMin < entryTenToEleven.endMin
        ∧ entryTenToEleven.startMin < entryNineToTen.endMin))
    ∧ Timetable.conflict entryNineToTen entryTenToEleven = false
    ∧ Timetable.conflict entryTenToEleven entryNineToTen = false :=
  claim2_conflict_charac entryNineToTen entryTenToEleven (by decide) (by decide)

/-- C3: the conflict test is symmetric in its two schedule entries. -/
theorem claim3_conflict_symm (A B : Timetable.ScheduleEntry) :
    Timetable.conflict A B = Timetable.conflict B A := by
  unfold Timetable.conflict Timetable.sharesDay Timetable.timesOverlap
  rw [Bool.eq_iff_iff]
  simp only [Bool.and_eq_true, List.any_eq_true, List.contains, List.elem_iff,
    decide_eq_true_iff]
  constructor
  · rintro ⟨⟨d, hdA, hdB⟩, h1, h2⟩
    exact ⟨⟨d, hdB, hdA⟩, h2, h1⟩
  · rintro ⟨⟨d, hdB, hdA⟩, h2, h1⟩
    exact ⟨⟨d, hdA, hdB⟩, h1, h2⟩

/-- C4: the enumerator is deterministic and idempotent: a second run on
the unchanged selection yields the identical ordered list, and the
combination at each enumeration index is a function of the insertion
order of the groups alone (positional decoding of the index). -/
theorem claim4_enumerator_deterministic (gs : List (List Timetable.Sec)) :
    Timetable.enumerate gs = Timetable.enumerate gs
    ∧ Timetable.enumerate gs
        = (List.range (Timetable.numCombos gs)).map (Timetable.decodeCombo gs) :=
  ⟨rfl, Timetable.enumerate_eq_range_map gs⟩

/-- C5 counterexample: removing the first of two selected courses and
re-adding it appends it to the end of the selection, and the enumerator
then yields a different ordered list of combinations. -/
theorem claim5_removeAdd_counterexample :
    Timetable.enumerateSelection
        (Timetable.addCourse
          (Timetable.removeCourse [courseA, courseB] (Timetable.courseKey courseA))
          courseA)
      ≠ Timetable.enumerateSelection [courseA, courseB] := by
  decide

/-- C5 (amended): remove-then-add moves the course to the end of the
selection, so the original combination list and order are guaranteed to
be restored whenever the removed course was the last of the selection
(its key appearing nowhere earlier); for a non-last course the
enumeration can come out in a different order. -/
theorem claim5_removeAdd_restores_last (sel : List Timetable.Course)
    (c : Timetable.Course)
    (h : ∀ x ∈ sel, Timetable.courseKey x ≠ Timetable.courseKey c) :
    Timetable.enumerateSelection
        (Timetable.addCourse
          (Timetable.removeCourse (sel ++ [c]) (Timetable.courseKey c)) c)
      = Timetable.enumerateSelection (sel ++ [c]) := by
  have hrem : Timetable.removeCourse (sel ++ [c]) (Timetable.courseKey c) = sel := by
    unfold Timetable.removeCourse
    rw [List.filter_append]
    have h1 : sel.filter
        (fun x => Timetable.courseKey x != Timetable.courseKey c) = sel := by
      refine List.filter_eq_self.mpr ?_
      intro x hx
      exact bne_iff_ne.mpr (h x hx)
    have h2 : [c].filter
        (fun x => Timetable.courseKey x != Timetable.courseKey c) = [] := by
      simp
    rw [h1, h2, List.append_nil]
  rw [hrem]
  unfold Timetable.addCourse
  have hany : (sel.any fun x => Timetable.courseKey x == Timetable.courseKey c)
      = false := by
    refine List.any_eq_false.mpr ?_
    intro x hx
    simp only [beq_iff_eq]
    exact h x hx
  rw [hany]
  simp

/-- Witness for C5 (amended): a concrete two-course selection whose
removed course is the last one. -/
theorem claim5_removeAdd_restores_last_witness :
    Timetable.enumerateSelection
        (Timetable.addCourse
          (Timetable.removeCourse ([courseB] ++ [courseA])
            (Timetable.courseKey courseA))
          courseA)
      = Timetable.enumerateSelection ([courseB] ++ [courseA]) :=
  claim5_removeAdd_restores_last [courseB] courseA (by decide)

theorem keyval_unique {l : List (String × JSValue)} (hk : (l.map Prod.fst).Nodup)
    {k : String} {a b : JSValue} (ha : (k, a) ∈ l) (hb : (k, b) ∈ l) : a = b := by
  induction l with
  | nil => cases ha
  | cons p l ih =>
    have hk' := hk
    rw [List.map_cons, List.nodup_cons] at hk'
    rcases List.mem_cons.mp ha with ha1 | ha2
    · rcases List.mem_cons.mp hb with hb1 | hb2
      · exact congrArg Prod.snd (ha1.trans hb1.symm)
      · exfalso
        apply hk'.1
        rw [← ha1]
        exact List.mem_map.mpr ⟨(k, b), hb2, rfl⟩
    · rcases List.mem_cons.mp hb with hb1 | hb2
      · exfalso
        apply hk'.1
        rw [← hb1]
        exact List.mem_map.mpr ⟨(k, a), ha2, rfl⟩
      · exact ih hk'.2 ha2 hb2

/-- C6: the query parameter list built by the debounced search contains
exactly the parameters whose value is defined, non-empty and not false;
boolean false parameters are omitted entirely and boolean true
parameters are present. -/
theorem claim6_buildQuery_exact (params : List (String × JSValue))
    (hkeys : (params.map Prod.fst).Nodup) :
    (∀ k v, (k, v) ∈ params →
        (((k, jsToString v) ∈ buildQueryParams params) ↔
          (v ≠ JSValue.vUndefined ∧ v ≠ JSValue.vStr "" ∧ v ≠ JSValue.vBool false)))
    ∧ (∀ k, (k, JSValue.vBool false) ∈ params →
        ∀ s, (k, s) ∉ buildQueryParams params)
    ∧ (∀ k, (k, JSValue.vBool true) ∈ params →
        (k, "true") ∈ buildQueryParams params) := by
  have hkeep : ∀ v : JSValue, keepParam v = true ↔
      (v ≠ JSValue.vUndefined ∧ v ≠ JSValue.vStr "" ∧ v ≠ JSValue.vBool false) := by
    intro v
    simp [keepParam, bne_iff_ne, and_assoc]
  refine ⟨?_, ?_, ?_⟩
  · intro k v hv
    constructor
    · intro hmem
      rcases List.mem_map.mp hmem with ⟨p, hpf, hpe⟩
      rcases List.mem_filter.mp hpf with ⟨hpl, hpk⟩
      have hk1 : p.1 = k := congrArg Prod.fst hpe
      have hpv : p.2 = v := by
        refine keyval_unique hkeys ?_ hv
        rw [← hk1]
        simpa using hpl
      rw [← hpv]
      exact (hkeep p.2).mp hpk
    · intro hprops
      exact List.mem_map.mpr
        ⟨(k, v), List.mem_filter.mpr ⟨hv, (hkeep v).mpr hprops⟩, rfl⟩
  · intro k hkf s hmem
    rcases List.mem_map.mp hmem with ⟨p, hpf, hpe⟩
    rcases List.mem_filter.mp hpf with ⟨hpl, hpk⟩
    have hk1 : p.1 = k := congrArg Prod.fst hpe
    have hpv : p.2 = JSValue.vBool false := by
      refine keyval_unique hkeys ?_ hkf
      rw [← hk1]
      simpa using hpl
    rw [hpv] at hpk
    simp [keepParam] at hpk
  · intro k hkt
    exact List.mem_map.mpr
      ⟨(k, JSValue.vBool true), List.mem_filter.mpr ⟨hkt, rfl⟩, rfl⟩

/-- Witness for C6: in a concrete parameter list the true boolean is
present in the query. -/
theorem claim6_buildQuery_exact_witness :
    ("online", "true") ∈ buildQueryParams demoParams :=
  (claim6_buildQuery_exact demoParams (by decide)).2.2 "online" (by decide)

/-- C7: after a successful fetch, every merged course record carries
exactly the fetched sections whose subject and course code equal the
course's. -/
theorem claim7_mergeSections_exact (courses : List Course)
    (sections : List Section) :
    ∀ c ∈ mergeSections courses sections, ∀ s : Section,
      (s ∈ c.sections ↔
        (s ∈ sections ∧ s.subject = c.subject ∧ s.course_code = c.course_code)) := by
  intro c hc s
  rcases List.mem_map.mp hc with ⟨c0, _, rfl⟩
  simp only [List.mem_filter, Bool.and_eq_true, beq_iff_eq]

/-- Witness for C7 at a concrete course and section. -/
theorem claim7_mergeSections_exact_witness :
    sampleSection "s1" "CPSC" "1050" ∈ demoMergedCourse.sections ↔
      (sampleSection "s1" "CPSC" "1050" ∈ demoSections
        ∧ (sampleSection "s1" "CPSC" "1050").subject = demoMergedCourse.subject
        ∧ (sampleSection "s1" "CPSC" "1050").course_code
            = demoMergedCourse.course_code) :=
  claim7_mergeSections_exact demoCourses demoSections demoMergedCourse (by decide)
    (sampleSection "s1" "CPSC" "1050")

/-- Observer of the fetch outcome: true exactly on the error state. -/
def isErr : FetchResult → Bool
  | .err _ => true
  | .ok _ => false

/-- C8: if either bootstrap request fails or parses badly, the fetch
ends in the explicit error state; merged course data is exposed only
when both requests succeed, so partial success is total failure. -/
theorem claim8_fetchData_error (cr : Except String CoursesResponse)
    (sr : Except String SectionsResponse) :
    (∀ e, cr = Except.error e → isErr (fetchData cr sr) = true)
    ∧ (∀ e, sr = Except.error e → isErr (fetchData cr sr) = true)
    ∧ (∀ cs, fetchData cr sr = FetchResult.ok cs →
        ∃ cd sd, cr = Except.ok cd ∧ sr = Except.ok sd
          ∧ cs = mergeSections cd.courses sd.sections) := by
  refine ⟨?_, ?_, ?_⟩
  · intro e he
    subst he
    cases sr with
    | error e2 => rfl
    | ok sd => rfl
  · intro e he
    subst he
    cases cr with
    | error e1 => rfl
    | ok cd => rfl
  · intro cs hcs
    cases cr with
    | error e1 =>
      exfalso
      cases sr with
      | error e2 => exact FetchResult.noConfusion hcs
      | ok sd => exact FetchResult.noConfusion hcs
    | ok cd =>
      cases sr with
      | error e2 => exact absurd hcs (by intro hcs; exact FetchResult.noConfusion hcs)
      | ok sd =>
        refine ⟨cd, sd, rfl, rfl, ?_⟩
        have hred : fetchData (Except.ok cd) (Except.ok sd)
            = FetchResult.ok (mergeSections cd.courses sd.sections) := rfl
        rw [hred] at hcs
        injection hcs with h
        exact h.symm

/-- Witness for C8: a failing courses request yields the error state. -/
theorem claim8_fetchData_error_witness :
    isErr (fetchData (Except.error "NetworkError") (Except.ok ⟨demoSections⟩))
      = true :=
  (claim8_fetchData_error (Except.error "NetworkError")
    (Except.ok ⟨demoSections⟩)).1 "NetworkError" rfl

/-- C9 counterexample: a section whose only schedule entry is a non-exam
entry with an empty instructor string: the deduplicated list is the
nonempty list containing the empty string, so the claim's cell value is
the empty string, but the code displays TBA. -/
theorem claim9_cells_counterexample :
    instructorCell [examlessEmptyInstructor] = "TBA"
    ∧ specInstructorCell [examlessEmptyInstructor] = ""
    ∧ instructorCell [examlessEmptyInstructor]
        ≠ specInstructorCell [examlessEmptyInstructor] := by
  refine ⟨rfl, rfl, ?_⟩
  decide

/-- C9 (amended): the instructor and room cells show the exam-filtered,
first-occurrence set-deduplicated list joined with a comma separator,
with the fallbacks TBA and Unknown shown exactly when that joined string
is empty (in particular whenever the list is empty); the deduplicated
list has no duplicates, preserves order (it is a sublist of the input)
and has the same members as the input list. -/
theorem claim9_cells_dedup (schedule : List Schedule) :
    (instructorCell schedule =
      (if String.intercalate ", " (dedupKeepFirst
          ((schedule.filter (fun e => e.type != "Exam")).map (fun e => e.instructor))) = ""
       then "TBA"
       else String.intercalate ", " (dedupKeepFirst
          ((schedule.filter (fun e => e.type != "Exam")).map (fun e => e.instructor)))))
    ∧ (roomCell schedule =
      (if String.intercalate ", " (dedupKeepFirst
          ((schedule.filter (fun e => e.type != "Exam")).map (fun e => e.room))) = ""
       then "Unknown"
       else String.intercalate ", " (dedupKeepFirst
          ((schedule.filter (fun e => e.type != "Exam")).map (fun e => e.room)))))
    ∧ (dedupKeepFirst
        ((schedule.filter (fun e => e.type != "Exam")).map (fun e => e.instructor))).Nodup
    ∧ (dedupKeepFirst
        ((schedule.filter (fun e => e.type != "Exam")).map (fun e => e.instructor))).Sublist
        ((schedule.filter (fun e => e.type != "Exam")).map (fun e => e.instructor))
    ∧ (∀ x, x ∈ dedupKeepFirst
          ((schedule.filter (fun e => e.type != "Exam")).map (fun e => e.instructor)) ↔
        x ∈ (schedule.filter (fun e => e.type != "Exam")).map (fun e => e.instructor)) := by
  refine ⟨?_, ?_, ?_, ?_, ?_⟩
  · simp only [instructorCell]
    rw [jsDedup_eq_dedupKeepFirst]
  · simp only [roomCell]
    rw [jsDedup_eq_dedupKeepFirst]
  · rw [← jsDedup_eq_dedupKeepFirst]
    exact jsDedup_nodup _
  · rw [← jsDedup_eq_dedupKeepFirst]
    exact jsDedup_sublist _
  · intro x
    rw [← jsDedup_eq_dedupKeepFirst]
    exact mem_jsDedup x _

/-- C10: updating a search parameter resets the page to 1 and leaves all
other fields unchanged, except that updating the page itself changes
only the page field. -/
theorem claim10_handleInputChange_frame (p : SearchParamsState) (k : SPKey)
    (v : JSValue) :
    (k ≠ SPKey.page →
      handleInputChange p k v SPKey.page = JSValue.vNum 1
      ∧ handleInputChange p k v k = v
      ∧ ∀ k2, k2 ≠ k → k2 ≠ SPKey.page → handleInputChange p k v k2 = p k2)
    ∧ (k = SPKey.page →
      handleInputChange p k v SPKey.page = v
      ∧ ∀ k2, k2 ≠ SPKey.page → handleInputChange p k v k2 = p k2) := by
  constructor
  · intro h
    refine ⟨?_, ?_, ?_⟩
    · simp [handleInputChange, setField, h]
    · simp [handleInputChange, setField, h]
    · intro k2 h1 h2
      simp [handleInputChange, setField, h, h1, h2]
  · intro h
    subst h
    refine ⟨?_, ?_⟩
    · simp [handleInputChange, setField]
    · intro k2 h2
      simp [handleInputChange, setField, h2]

/-- Witness for C10: concrete updates of a non-page key and of the page
key, starting from the initial search parameters. -/
theorem claim10_handleInputChange_frame_witness :
    handleInputChange initialSearchParams SPKey.subject (JSValue.vStr "CPSC")
        SPKey.page = JSValue.vNum 1
    ∧ handleInputChange initialSearchParams SPKey.page (JSValue.vStr "2")
        SPKey.page = JSValue.vStr "2" :=
  ⟨((claim10_handleInputChange_frame initialSearchParams SPKey.subject
      (JSValue.vStr "CPSC")).1 (by decide)).1,
   ((claim10_handleInputChange_frame initialSearchParams SPKey.page
      (JSValue.vStr "2")).2 rfl).1⟩
